import Mathlib

/-!
# Overlay cache (`pkg/overlay/cache.go`)

A shallow embedding of the overlay `Cache` of the storj repository: `Get`, `Put`,
`Bootstrap` and `Refresh`, written against the two capabilities the cache is built
from (`storage.KeyValueStore` and `dht.DHT`), followed by a simulated world in which
every capability call is recorded, and by the theorems about these functions.

Conventions of the embedding:

* a Go `string` and a Go `[]byte` are both a list of byte values (`Bytes`), so the
  conversion `[]byte(s)` is the identity;
* a Go `error` is `Option Err`, `none` being `nil`;
* a Go pointer that may be `nil` is an `Option`;
* the outside world (store contents, DHT, network, random source) is an explicit
  state `ω` threaded through every call;
* a Go function that may dereference a nil pointer ends in `Exit.panic`.
-/

set_option autoImplicit false

namespace Overlay

/-! ## Data model -/

/-- Contents of a Go `string` or `[]byte`: a sequence of byte values. -/
abbrev Bytes := List Nat

/-- Go `error` values (the message stands for the error). -/
abbrev Err := String

/-- The protobuf message `overlay.NodeAddress`, with the field `cache.go` and
`node_test.go` use: `Address string`. -/
structure NodeAddress where
  Address : Bytes
deriving DecidableEq, Repr

/-- The protobuf message `overlay.Node`, with the fields `cache.go` and
`node_test.go` use: `Id string` and `Address *NodeAddress` (a pointer, `none` is
`nil`). -/
structure Node where
  Id : Bytes
  Address : Option NodeAddress
deriving DecidableEq, Repr

/-- The zero value `overlay.Node{}`: empty `Id`, nil `Address`. -/
def Node.zero : Node := ⟨[], none⟩

/-- Modelled from the spec: the type `kademlia.NodeID`, whose declaration is missing
from the sources. The spec calls it the identifier of a node, whose raw bytes key
the cache records; `cache.go` converts it from a `[]byte` (`kademlia.NodeID(r)`)
and to a `string` (`rid.String()`), so it is the identifier's byte content. -/
structure NodeID where
  raw : Bytes
deriving DecidableEq, Repr

/-- Modelled from the spec: the function `kademlia.StringToNodeID`, missing from the
sources: the NodeID whose content is the given string. -/
def StringToNodeID (s : Bytes) : NodeID := ⟨s⟩

/-- Modelled from the spec: the method `(*kademlia.NodeID).Bytes`, missing from the
sources: the raw NodeID bytes. -/
def NodeID.Bytes (n : NodeID) : Bytes := n.raw

/-- Modelled from the spec: the method `(*kademlia.NodeID).String`, missing from the
sources: the NodeID as a string. -/
def NodeID.String (n : NodeID) : Overlay.Bytes := n.raw

/-- Modelled from the spec: the method `storage.Value.IsZero`, missing from the
sources: the value returned by the store is the zero value, i.e. holds no bytes
(what the store answers for a key without a record). -/
def IsZero (b : Bytes) : Bool := b.isEmpty

/-! ## Capabilities -/

/-- The part of `storage.KeyValueStore` the cache calls: `Get(key) (Value, error)`
and `Put(key, value) error`, over a world `ω`. The value returned together with a
non-nil error is never looked at by `cache.go`, so `Get` is an `Except`. -/
structure KeyValueStore (ω : Type) where
  Get : ω → Bytes → Except Err Bytes
  Put : ω → Bytes → Bytes → Option Err × ω

/-- The part of `dht.DHT` the cache calls. `GetNodes` returns a slice of pointers
(`[]*overlay.Node`) and an error, `FindNode` and `Ping` return a `Node` value and an
error; Go returns both components whatever the error is. -/
structure DHT (ω : Type) where
  GetNodes : ω → Bytes → Int → (List (Option Node) × Option Err) × ω
  FindNode : ω → NodeID → (Node × Option Err) × ω
  Ping : ω → Node → (Node × Option Err) × ω

/-- The two functions of `github.com/gogo/protobuf/proto` the cache calls, on
`overlay.Node`: `proto.Marshal(&n)` and `proto.Unmarshal(b, &overlay.Node{})`. -/
structure Codec where
  Marshal : Node → Except Err Bytes
  Unmarshal : Bytes → Except Err Node

/-- The struct `Cache`: `DB storage.KeyValueStore` and `DHT dht.DHT`. -/
structure Cache (ω : Type) where
  DB : KeyValueStore ω
  DHT : DHT ω

deriving instance DecidableEq for Except

/-- How a Go function returning `error` ends: it returns (`ret none` is `nil`) or it
panics on a nil pointer dereference. -/
inductive Exit where
  | ret (err : Option Err)
  | panic
deriving DecidableEq, Repr

/-! ## The cache operations -/

variable {ω : Type}

/-- `func (o *Cache) Get(ctx, key string) (*overlay.Node, error)`. -/
def Cache.Get (o : Cache ω) (pb : Codec) (w : ω) (key : Bytes) : Option Node × Option Err :=
  match o.DB.Get w key with
  | .error err => (none, some err)
  | .ok b =>
    if IsZero b then
      (none, none)
    else
      match pb.Unmarshal b with
      | .error err => (none, some err)
      | .ok na => (some na, none)

/-- `func (o *Cache) Put(nodeID string, value overlay.Node) error`. -/
def Cache.Put (o : Cache ω) (pb : Codec) (w : ω) (nodeID : Bytes) (value : Node) :
    Option Err × ω :=
  match pb.Marshal value with
  | .error err => (some err, w)
  | .ok data => o.DB.Put w (StringToNodeID nodeID).Bytes data

/-- The `for _, v := range nodes` loop of `Bootstrap`. `some e` is a `return` (or a
panic) from inside the loop, `none` means the loop ran to its end. The error of
`FindNode` is only handed to `zap.Error`, which has no effect on the control flow;
`v.Id` on a nil `v` panics. -/
def Cache.bootstrapLoop (o : Cache ω) (pb : Codec) : List (Option Node) → ω → Option Exit × ω
  | [], w => (none, w)
  | none :: _, w => (some Exit.panic, w)
  | some v :: rest, w =>
    match o.DHT.FindNode w (StringToNodeID v.Id) with
    | ((found, _), w1) =>
      match pb.Marshal found with
      | .error err => (some (Exit.ret (some err)), w1)
      | .ok node =>
        match o.DB.Put w1 (StringToNodeID found.Id).Bytes node with
        | (some err, w2) => (some (Exit.ret (some err)), w2)
        | (none, w2) => Cache.bootstrapLoop o pb rest w2

/-- `func (o *Cache) Bootstrap(ctx) error`. The `err` returned by the last line is the
one declared by `nodes, err := o.DHT.GetNodes(ctx, "0", 1280)`: the `err` variables
of the loop body are declared by `:=` in the inner scope. `[48]` is the string `"0"`. -/
def Cache.Bootstrap (o : Cache ω) (pb : Codec) (w : ω) : Exit × ω :=
  match o.DHT.GetNodes w [48] 1280 with
  | ((nodes, err), w1) =>
    match Cache.bootstrapLoop o pb nodes w1 with
    | (some e, w2) => (e, w2)
    | (none, w2) => (Exit.ret err, w2)

/-- The first loop of `Refresh`, `for _, node := range near`: ping, return on a ping
error, write `pinged.Id ↦ pinged.Address.Address`, return on a write error. `*node`
on a nil `node` and `pinged.Address.Address` on a nil `Address` panic. -/
def Cache.refreshNear (o : Cache ω) : List (Option Node) → ω → Option Exit × ω
  | [], w => (none, w)
  | none :: _, w => (some Exit.panic, w)
  | some node :: rest, w =>
    match o.DHT.Ping w node with
    | ((_, some err), w1) => (some (Exit.ret (some err)), w1)
    | ((pinged, none), w1) =>
      match pinged.Address with
      | none => (some Exit.panic, w1)
      | some a =>
        match o.DB.Put w1 pinged.Id a.Address with
        | (some err, w2) => (some (Exit.ret (some err)), w2)
        | (none, w2) => Cache.refreshNear o rest w2

/-- The second loop of `Refresh`, `for _, node := range nodes`: on a ping error
`zap.Error(ErrNodeNotFound)` (no effect) and `return err`, else the write. -/
def Cache.refreshAll (o : Cache ω) : List (Option Node) → ω → Option Exit × ω
  | [], w => (none, w)
  | none :: _, w => (some Exit.panic, w)
  | some node :: rest, w =>
    match o.DHT.Ping w node with
    | ((_, some err), w1) => (some (Exit.ret (some err)), w1)
    | ((pinged, none), w1) =>
      match pinged.Address with
      | none => (some Exit.panic, w1)
      | some a =>
        match o.DB.Put w1 pinged.Id a.Address with
        | (some err, w2) => (some (Exit.ret (some err)), w2)
        | (none, w2) => Cache.refreshAll o rest w2

/-- `func (o *Cache) Refresh(ctx) error`. `randomID` is the function of that name
(64 bytes read from `crypto/rand`, with the error of the read), which acts on the
world; `[]` is the string `""`. The `err` returned by the last line is the one
assigned by the second `GetNodes`. -/
def Cache.Refresh (o : Cache ω) (randomID : ω → (Bytes × Option Err) × ω) (w : ω) :
    Exit × ω :=
  match randomID w with
  | ((_, some err), w0) => (Exit.ret (some err), w0)
  | ((r, none), w0) =>
    match o.DHT.GetNodes w0 (NodeID.String ⟨r⟩) 128 with
    | ((_, some err), w1) => (Exit.ret (some err), w1)
    | ((near, none), w1) =>
      match Cache.refreshNear o near w1 with
      | (some e, w2) => (e, w2)
      | (none, w2) =>
        match o.DHT.GetNodes w2 [] 128 with
        | ((_, some err), w3) => (Exit.ret (some err), w3)
        | ((nodes, err), w3) =>
          match Cache.refreshAll o nodes w3 with
          | (some e, w4) => (e, w4)
          | (none, w4) => (Exit.ret err, w4)

/-! ## A simulated world

`storage.KeyValueStore` and `dht.DHT` are interfaces whose implementations are
missing from the sources. The simulated world below implements them in the way a
test double does: the store is a
finite map, every capability call is appended to a log together with its arguments
and results, and what the DHT, the random source and the store's failures answer is
given by a `Script` that may depend on everything that happened before. -/

/-- One call of a capability, with its arguments and what it returned. -/
inductive Event where
  | randRead (out : Bytes) (err : Option Err)
  | getNodes (start : Bytes) (limit : Int) (nodes : List (Option Node)) (err : Option Err)
  | findNode (id : NodeID) (found : Node) (err : Option Err)
  | ping (node : Node) (pinged : Node) (err : Option Err)
  | put (key : Bytes) (value : Bytes) (err : Option Err)
deriving DecidableEq, Repr

/-- The error an event returned (`none` is `nil`). -/
def Event.err : Event → Option Err
  | .randRead _ e => e
  | .getNodes _ _ _ e => e
  | .findNode _ _ e => e
  | .ping _ _ e => e
  | .put _ _ e => e

/-- The answers of the outside world, each a function of the calls made so far. -/
structure Script where
  randRead : List Event → Bytes × Option Err
  getNodes : List Event → Bytes → Int → List (Option Node) × Option Err
  findNode : List Event → NodeID → Node × Option Err
  ping : List Event → Node → Node × Option Err
  putErr : List Event → Bytes → Bytes → Option Err
  getErr : List Event → Bytes → Option Err

/-- State of the simulated world: the records of the store and the calls so far. -/
structure Sim where
  kv : List (Bytes × Bytes)
  log : List Event
deriving DecidableEq, Repr

/-- Modelled from the spec: the upsert of the key-value store capability (its
implementations are missing from the sources), on a finite map kept as a list of
records: the record of `k` is replaced when there is one and added otherwise. -/
def upsert (k v : Bytes) : List (Bytes × Bytes) → List (Bytes × Bytes)
  | [] => [(k, v)]
  | (k', v') :: rest => if k' = k then (k, v) :: rest else (k', v') :: upsert k v rest

/-- Modelled from the spec: the lookup of the key-value store capability (its
implementations are missing from the sources): the value of the first record of
`k`. -/
def lookup (k : Bytes) : List (Bytes × Bytes) → Option Bytes
  | [] => none
  | (k', v') :: rest => if k' = k then some v' else lookup k rest

/-- Number of records the store holds under the key `k`. -/
def countKey (k : Bytes) : List (Bytes × Bytes) → Nat
  | [] => 0
  | (k', _) :: rest => (if k' = k then 1 else 0) + countKey k rest

/-- Modelled from the spec: the key-value store capability (`storage.KeyValueStore`,
whose implementations are missing from the sources) as a finite map with injected
failures. `Get` answers the value last put under the key,
the zero value on a miss; a `Put` that fails leaves the records as they are. -/
def simStore (s : Script) : KeyValueStore Sim where
  Get := fun w key =>
    match s.getErr w.log key with
    | some e => .error e
    | none => .ok ((lookup key w.kv).getD [])
  Put := fun w key value =>
    match s.putErr w.log key value with
    | some e => (some e, { kv := w.kv, log := w.log ++ [Event.put key value (some e)] })
    | none => (none, { kv := upsert key value w.kv, log := w.log ++ [Event.put key value none] })

/-- Modelled from the spec: the DHT capability (`dht.DHT`, whose implementations
are missing from the sources) as a scripted double: it answers what the script says and records the call. -/
def simDHT (s : Script) : DHT Sim where
  GetNodes := fun w start limit =>
    let r := s.getNodes w.log start limit
    (r, { kv := w.kv, log := w.log ++ [Event.getNodes start limit r.1 r.2] })
  FindNode := fun w id =>
    let r := s.findNode w.log id
    (r, { kv := w.kv, log := w.log ++ [Event.findNode id r.1 r.2] })
  Ping := fun w node =>
    let r := s.ping w.log node
    (r, { kv := w.kv, log := w.log ++ [Event.ping node r.1 r.2] })

/-- The cache over the simulated world. -/
def simCache (s : Script) : Cache Sim := ⟨simStore s, simDHT s⟩

/-- `randomID()` over the simulated world. -/
def simRand (s : Script) (w : Sim) : (Bytes × Option Err) × Sim :=
  let r := s.randRead w.log
  (r, { kv := w.kv, log := w.log ++ [Event.randRead r.1 r.2] })

/-! ## The protobuf codec of `overlay.Node`

`proto.Marshal` and `proto.Unmarshal` belong to the protobuf library. The general
theorems take the codec as a parameter; the concrete inputs are evaluated with the
model below of the library's table-driven codec on the two messages, with the fields
the sources show (`Node.id` is field 1, `Node.address` field 2, `NodeAddress.address`
field 2; `NodeAddress.transport`, field 1, is an enum the model does not keep).

* Marshal: a string holding its default value is not written, a string field is
  `tag, length, bytes`, a non-nil sub-message is `tag, length, message`; a string
  that is not valid UTF-8 makes `Marshal` return an error.
* Unmarshal: a field with an unknown number, or a known number with another wire
  type, is skipped by wire type (groups included); a varint longer than ten bytes,
  a length beyond the buffer and an unfinished group are `unexpected EOF`; a string
  that is not valid UTF-8 is an error reported when the message has been read. -/

/-- The error `io.ErrUnexpectedEOF`. -/
def errUnexpectedEOF : Err := "unexpected EOF"

/-- The error of the library for a string field that is not valid UTF-8. -/
def errInvalidUTF8 : Err := "proto: invalid UTF-8 string"

/-- A continuation byte of UTF-8, `0x80..0xBF`. -/
def isCont (b : Nat) : Bool := decide (128 ≤ b) && decide (b ≤ 191)

/-- Go's `utf8.ValidString`: one-byte sequences below `0x80`; two-byte sequences
with lead `0xC2..0xDF`; three-byte sequences with lead `0xE0..0xEF` (second byte from
`0xA0` after `0xE0`, up to `0x9F` after `0xED`); four-byte sequences with lead
`0xF0..0xF4` (second byte from `0x90` after `0xF0`, up to `0x8F` after `0xF4`). -/
def validUTF8 : Bytes → Bool
  | [] => true
  | b0 :: rest =>
    if b0 < 128 then validUTF8 rest
    else if 194 ≤ b0 ∧ b0 ≤ 223 then
      match rest with
      | b1 :: rest1 => isCont b1 && validUTF8 rest1
      | _ => false
    else if 224 ≤ b0 ∧ b0 ≤ 239 then
      match rest with
      | b1 :: b2 :: rest2 =>
        decide ((if b0 = 224 then 160 else 128) ≤ b1)
          && decide (b1 ≤ (if b0 = 237 then 159 else 191))
          && isCont b2 && validUTF8 rest2
      | _ => false
    else if 240 ≤ b0 ∧ b0 ≤ 244 then
      match rest with
      | b1 :: b2 :: b3 :: rest3 =>
        decide ((if b0 = 240 then 144 else 128) ≤ b1)
          && decide (b1 ≤ (if b0 = 244 then 143 else 191))
          && isCont b2 && isCont b3 && validUTF8 rest3
      | _ => false
    else false

/-- Base-128 varint of `n`, least significant group first, at most `fuel` groups. -/
def putUvarint : Nat → Nat → Bytes
  | 0, _ => []
  | fuel + 1, n => if n < 128 then [n] else (n % 128 + 128) :: putUvarint fuel (n / 128)

/-- The library's `decodeVarint`, with `k` the number of bytes it may still read: a
varint is at most ten bytes, every byte but the last has the high bit set, and the
tenth byte is below 2. `none` is the library's `(0, 0)`. -/
def decodeVarintAux : Nat → Bytes → Option (Nat × Bytes)
  | 0, _ => none
  | _, [] => none
  | k + 1, b :: rest =>
    if k = 0 then (if b < 2 then some (b, rest) else none)
    else if b < 128 then some (b, rest)
    else match decodeVarintAux k rest with
      | some (v, r) => some (b - 128 + 128 * v, r)
      | none => none

/-- The library's `decodeVarint`: the value and the rest of the buffer. -/
def decodeVarint (b : Bytes) : Option (Nat × Bytes) := decodeVarintAux 10 b

/-- The library's `findEndGroup`, started at depth 1: the buffer after the end-group
tag that closes the group, `none` when there is none. `fuel` bounds the number of
tags read. -/
def findEndGroup : Nat → Nat → Bytes → Option Bytes
  | 0, _, _ => none
  | fuel + 1, depth, b =>
    match decodeVarint b with
    | none => none
    | some (x, r) =>
      if x % 8 = 0 then
        match decodeVarint r with
        | some (_, r') => findEndGroup fuel depth r'
        | none => none
      else if x % 8 = 5 then
        (if r.length < 4 then none else findEndGroup fuel depth (r.drop 4))
      else if x % 8 = 1 then
        (if r.length < 8 then none else findEndGroup fuel depth (r.drop 8))
      else if x % 8 = 2 then
        match decodeVarint r with
        | some (m, r') => if r'.length < m then none else findEndGroup fuel depth (r'.drop m)
        | none => none
      else if x % 8 = 3 then findEndGroup fuel (depth + 1) r
      else if x % 8 = 4 then (if depth ≤ 1 then some r else findEndGroup fuel (depth - 1) r)
      else none

/-- The library's `skipField`: the buffer after the value of a field of wire type
`wire` (0 varint, 1 fixed64, 2 bytes, 3 start of a group, 5 fixed32). -/
def skipField (wire : Nat) (b : Bytes) : Except Err Bytes :=
  if wire = 0 then
    match decodeVarint b with
    | some (_, r) => .ok r
    | none => .error errUnexpectedEOF
  else if wire = 5 then (if b.length < 4 then .error errUnexpectedEOF else .ok (b.drop 4))
  else if wire = 1 then (if b.length < 8 then .error errUnexpectedEOF else .ok (b.drop 8))
  else if wire = 2 then
    match decodeVarint b with
    | some (m, r) => if r.length < m then .error errUnexpectedEOF else .ok (r.drop m)
    | none => .error errUnexpectedEOF
  else if wire = 3 then
    match findEndGroup b.length 1 b with
    | some r => .ok r
    | none => .error errUnexpectedEOF
  else .error "proto: can't skip unknown wire type"

/-- A proto3 string field with the given tag byte: nothing when the string is empty. -/
def putString (tag : Nat) (s : Bytes) : Bytes :=
  if s = [] then [] else tag :: (putUvarint 10 s.length ++ s)

/-- Wire bytes of a `NodeAddress`: `address` is field 2 (tag byte 18). -/
def marshalAddress (a : NodeAddress) : Bytes := putString 18 a.Address

/-- Wire bytes of a `Node`: `id` is field 1 (tag byte 10), `address` field 2 (tag byte
18), written when the pointer is not nil. -/
def marshalNode (n : Node) : Bytes :=
  putString 10 n.Id ++
    (match n.Address with
     | none => []
     | some a => 18 :: (putUvarint 10 (marshalAddress a).length ++ marshalAddress a))

/-- Every string of the node is valid UTF-8. -/
def stringsValid (n : Node) : Bool :=
  validUTF8 n.Id &&
    (match n.Address with
     | none => true
     | some a => validUTF8 a.Address)

/-- Reads the fields of a `NodeAddress` into `acc`. `later` is the error to report
when the buffer has been read (`errLater` of the library), `fuel` bounds the number
of fields. -/
def unmarshalAddress : Nat → Bytes → NodeAddress → Option Err → Except Err NodeAddress
  | _, [], acc, later =>
    match later with
    | some e => .error e
    | none => .ok acc
  | 0, _ :: _, _, _ => .error errUnexpectedEOF
  | fuel + 1, b :: rest, acc, later =>
    match decodeVarint (b :: rest) with
    | none => .error errUnexpectedEOF
    | some (x, r) =>
      if x / 8 = 2 ∧ x % 8 = 2 then
        match decodeVarint r with
        | none => .error errUnexpectedEOF
        | some (n, r') =>
          if r'.length < n then .error errUnexpectedEOF
          else
            unmarshalAddress fuel (r'.drop n) ⟨r'.take n⟩
              (if validUTF8 (r'.take n) then later else later.orElse (fun _ => some errInvalidUTF8))
      else
        match skipField (x % 8) r with
        | .error e => .error e
        | .ok r' => unmarshalAddress fuel r' acc later

/-- Reads the fields of a `Node` into `acc`. A second `address` field is merged into
the first; an error inside the sub-message is returned at once. -/
def unmarshalNode : Nat → Bytes → Node → Option Err → Except Err Node
  | _, [], acc, later =>
    match later with
    | some e => .error e
    | none => .ok acc
  | 0, _ :: _, _, _ => .error errUnexpectedEOF
  | fuel + 1, b :: rest, acc, later =>
    match decodeVarint (b :: rest) with
    | none => .error errUnexpectedEOF
    | some (x, r) =>
      if x / 8 = 1 ∧ x % 8 = 2 then
        match decodeVarint r with
        | none => .error errUnexpectedEOF
        | some (n, r') =>
          if r'.length < n then .error errUnexpectedEOF
          else
            unmarshalNode fuel (r'.drop n) ⟨r'.take n, acc.Address⟩
              (if validUTF8 (r'.take n) then later else later.orElse (fun _ => some errInvalidUTF8))
      else if x / 8 = 2 ∧ x % 8 = 2 then
        match decodeVarint r with
        | none => .error errUnexpectedEOF
        | some (n, r') =>
          if r'.length < n then .error errUnexpectedEOF
          else
            match unmarshalAddress n (r'.take n) (acc.Address.getD ⟨[]⟩) none with
            | .error e => .error e
            | .ok a => unmarshalNode fuel (r'.drop n) ⟨acc.Id, some a⟩ later
      else
        match skipField (x % 8) r with
        | .error e => .error e
        | .ok r' => unmarshalNode fuel r' acc later

/-- The codec of `overlay.Node`: `proto.Marshal` fails on a string that is not valid
UTF-8, `proto.Unmarshal` reads into a fresh `overlay.Node{}`. -/
def proto3 : Codec where
  Marshal := fun n => if stringsValid n then .ok (marshalNode n) else .error errInvalidUTF8
  Unmarshal := fun b => unmarshalNode b.length b Node.zero none

/-! ## Concrete inputs -/

/-- A world in which nothing fails and the DHT knows no node. -/
def quietScript : Script where
  randRead := fun _ => ([], none)
  getNodes := fun _ _ _ => ([], none)
  findNode := fun _ _ => (Node.zero, none)
  ping := fun _ n => (n, none)
  putErr := fun _ _ _ => none
  getErr := fun _ _ => none

/-- The simulated world before any call, with an empty store. -/
def Sim.init : Sim := ⟨[], []⟩

/-- The node `{Id: "n1", Address: &NodeAddress{Address: ":7070"}}`. -/
def nodeN1 : Node := ⟨[110, 49], some ⟨[58, 55, 48, 55, 48]⟩⟩

/-- The node `{Id: "n2", Address: &NodeAddress{Address: ":8080"}}`. -/
def nodeN2 : Node := ⟨[110, 50], some ⟨[58, 56, 48, 56, 48]⟩⟩

/-! ## Concrete networks -/

/-- The node `{Id: "\xff", Address: &NodeAddress{Address: ":7070"}}`, whose ID is not
valid UTF-8. -/
def nodeBad : Node := ⟨[255], some ⟨[58, 55, 48, 55, 48]⟩⟩

/-- The node `{Id: "n3", Address: &NodeAddress{Address: ":9090"}}`. -/
def nodeN3 : Node := ⟨[110, 51], some ⟨[58, 57, 48, 57, 48]⟩⟩

/-- What a DHT that knows the nodes `known` answers to `FindNode(id)`: the node with
that ID, or the zero-value node and an error. -/
def findIn (known : List Node) (id : NodeID) : Node × Option Err :=
  match known.find? (fun n => decide (n.Id = id.raw)) with
  | some n => (n, none)
  | none => (Node.zero, some "node not found")

/-- A world whose DHT knows `known`: `GetNodes` returns all of them, `FindNode`
finds them by ID, `Ping` answers with the node pinged, and nothing fails. -/
def netScript (known : List Node) : Script where
  randRead := fun _ => ([7, 7, 7], none)
  getNodes := fun _ _ _ => (known.map some, none)
  findNode := fun _ id => findIn known id
  ping := fun _ n => (n, none)
  putErr := fun _ _ _ => none
  getErr := fun _ _ => none

/-- The world of `netScript known` with a store that refuses every write under the
key `k` with the error `"disk full"`. -/
def putFailsScript (known : List Node) (k : Bytes) : Script :=
  { netScript known with putErr := fun _ key _ => if key = k then some "disk full" else none }

/-- A world whose DHT fails `GetNodes` with `"dht down"` and returns no node. -/
def getNodesFailsScript : Script :=
  { quietScript with getNodes := fun _ _ _ => ([], some "dht down") }

/-- A world whose DHT lists `known` but fails every `FindNode` with the zero-value
node and the error `"node not found"`. -/
def findFailsScript (known : List Node) : Script :=
  { netScript known with findNode := fun _ _ => (Node.zero, some "node not found") }

/-- A world whose DHT lists `known` and fails the `Ping` of the node with ID `k`
with the error `"ping timeout"`. -/
def pingFailsScript (known : List Node) (k : Bytes) : Script :=
  { netScript known with
    ping := fun _ n => if n.Id = k then (Node.zero, some "ping timeout") else (n, none) }

/-- A world whose store fails every `Get` with the error `"store down"`. -/
def getFailsScript : Script :=
  { quietScript with getErr := fun _ _ => some "store down" }

/-! ## Properties of a log -/

/-- The event is a `FindNode` call. -/
def Event.isFindNode : Event → Bool
  | .findNode _ _ _ => true
  | _ => false

/-- The event is a store `Put` call. -/
def Event.isPut : Event → Bool
  | .put _ _ _ => true
  | _ => false

/-- The walk of `Bootstrap`, as a check of a log against the slice that `GetNodes`
returned: for each entry in order one `FindNode` of the node's ID followed, when the
node `FindNode` returned serializes, by one `Put` whose key is the ID bytes of that
node (whatever the error of `FindNode`) and whose value is its serialization. The
log goes on to the next entry after a `Put` that succeeded; it ends at a nil entry,
with the `FindNode` whose node does not serialize, and with a `Put` that failed. -/
def walkTraceOK (pb : Codec) : List (Option Node) → List Event → Bool
  | [], tr => tr.isEmpty
  | none :: _, tr => tr.isEmpty
  | some v :: rest, Event.findNode id found _ :: tr =>
    decide (id = StringToNodeID v.Id) &&
      (match pb.Marshal found, tr with
       | .error _, tr => tr.isEmpty
       | .ok value, Event.put key val perr :: tr' =>
         decide (key = (StringToNodeID found.Id).Bytes) && decide (val = value) &&
           (match perr with
            | none => walkTraceOK pb rest tr'
            | some _ => tr'.isEmpty)
       | .ok _, _ => false)
  | some _ :: _, _ => false

/-- No call of the log returned an error. -/
def Clean (tr : List Event) : Prop := ∀ ev ∈ tr, ev.err = none

/-- The log `tr` of a run that ended with `r` (`none`: a loop that ran to its end):
either no call returned an error, or exactly the last call did and the run returned
that error. -/
def Stops (r : Option Exit) (tr : List Event) : Prop :=
  Clean tr ∨ ∃ init ev e, tr = init ++ [ev] ∧ Clean init ∧ ev.err = some e
    ∧ r = some (Exit.ret (some e))

/-! ## Lemmas on the finite map -/

theorem lookup_upsert_self (k v : Bytes) (kv : List (Bytes × Bytes)) :
    lookup k (upsert k v kv) = some v := by
  induction kv with
  | nil => simp [upsert, lookup]
  | cons p rest ih =>
    obtain ⟨k', v'⟩ := p
    by_cases h : k' = k
    · simp [upsert, lookup, h]
    · simp [upsert, lookup, h, ih]

theorem lookup_upsert_ne (k k' v : Bytes) (kv : List (Bytes × Bytes)) (h : k' ≠ k) :
    lookup k' (upsert k v kv) = lookup k' kv := by
  induction kv with
  | nil => simp [upsert, lookup, Ne.symm h]
  | cons p rest ih =>
    obtain ⟨k0, v0⟩ := p
    by_cases h0 : k0 = k
    · subst h0
      simp [upsert, lookup, Ne.symm h]
    · by_cases h1 : k0 = k'
      · subst h1
        simp [upsert, lookup, h0]
      · simp [upsert, lookup, h0, h1, ih]

theorem upsert_upsert_same (k v : Bytes) (kv : List (Bytes × Bytes)) :
    upsert k v (upsert k v kv) = upsert k v kv := by
  induction kv with
  | nil => simp [upsert]
  | cons p rest ih =>
    obtain ⟨k0, v0⟩ := p
    by_cases h0 : k0 = k <;> simp [upsert, h0, ih]

theorem keys_upsert_mem (k v : Bytes) (kv : List (Bytes × Bytes))
    (h : k ∈ kv.map Prod.fst) : (upsert k v kv).map Prod.fst = kv.map Prod.fst := by
  induction kv with
  | nil => simp at h
  | cons p rest ih =>
    obtain ⟨k0, v0⟩ := p
    by_cases h0 : k0 = k
    · simp [upsert, h0]
    · have hr : k ∈ rest.map Prod.fst := by
        simp only [List.map_cons, List.mem_cons] at h
        rcases h with h | h
        · exact absurd h.symm h0
        · exact h
      simp [upsert, h0, ih hr]

theorem keys_upsert_not_mem (k v : Bytes) (kv : List (Bytes × Bytes))
    (h : k ∉ kv.map Prod.fst) : (upsert k v kv).map Prod.fst = kv.map Prod.fst ++ [k] := by
  induction kv with
  | nil => simp [upsert]
  | cons p rest ih =>
    obtain ⟨k0, v0⟩ := p
    simp only [List.map_cons, List.mem_cons, not_or] at h
    have h0 : ¬ k0 = k := fun e => h.1 e.symm
    simp [upsert, h0, ih h.2]

theorem mem_keys_upsert (k v : Bytes) (kv : List (Bytes × Bytes)) :
    k ∈ (upsert k v kv).map Prod.fst := by
  by_cases h : k ∈ kv.map Prod.fst
  · rw [keys_upsert_mem k v kv h]; exact h
  · rw [keys_upsert_not_mem k v kv h]; simp

theorem nodup_keys_upsert (k v : Bytes) (kv : List (Bytes × Bytes))
    (h : (kv.map Prod.fst).Nodup) : ((upsert k v kv).map Prod.fst).Nodup := by
  by_cases hk : k ∈ kv.map Prod.fst
  · rw [keys_upsert_mem k v kv hk]; exact h
  · rw [keys_upsert_not_mem k v kv hk]
    exact List.Nodup.append h (List.nodup_singleton k) (by simpa using hk)

theorem length_upsert_not_mem (k v : Bytes) (kv : List (Bytes × Bytes))
    (h : k ∉ kv.map Prod.fst) : (upsert k v kv).length = kv.length + 1 := by
  have := congrArg List.length (keys_upsert_not_mem k v kv h)
  simpa using this

theorem countKey_eq_zero (k : Bytes) (kv : List (Bytes × Bytes))
    (h : k ∉ kv.map Prod.fst) : countKey k kv = 0 := by
  induction kv with
  | nil => rfl
  | cons p rest ih =>
    obtain ⟨k0, v0⟩ := p
    simp only [List.map_cons, List.mem_cons, not_or] at h
    have h0 : ¬ k0 = k := fun e => h.1 e.symm
    simp [countKey, h0, ih h.2]

theorem countKey_upsert (k v : Bytes) (kv : List (Bytes × Bytes))
    (h : (kv.map Prod.fst).Nodup) : countKey k (upsert k v kv) = 1 := by
  induction kv with
  | nil => simp [upsert, countKey]
  | cons p rest ih =>
    obtain ⟨k0, v0⟩ := p
    simp only [List.map_cons, List.nodup_cons] at h
    by_cases h0 : k0 = k
    · subst h0
      simp [upsert, countKey, countKey_eq_zero k0 rest h.1]
    · simp [upsert, countKey, h0, ih h.2]

/-! ## Get and Put -/

/-- C1 (as stated, at the zero-value node): on the simulated store the write of
`Put("a", Node{})` succeeds, the store gives back the value last put, the proto3
codec decodes that value to `Node{}`, and yet `Get("a")` returns no node (and no
error): the stored value is empty and `Get` takes an empty value for a miss. -/
theorem Get_after_Put_zero_node :
    Cache.Put (simCache quietScript) proto3 Sim.init [97] Node.zero
        = (none, ⟨[([97], [])], [Event.put [97] [] none]⟩)
      ∧ (simCache quietScript).DB.Get ⟨[([97], [])], [Event.put [97] [] none]⟩ [97]
        = .ok (marshalNode Node.zero)
      ∧ proto3.Unmarshal (marshalNode Node.zero) = .ok Node.zero
      ∧ Cache.Get (simCache quietScript) proto3 ⟨[([97], [])], [Event.put [97] [] none]⟩ [97]
        = (none, none) := by
  decide

/-- C1 (amended): round trip of the cache for a node whose serialization is not
empty. On any store, if `Put(id, n)` writes `data = Marshal(n)` successfully, the
store then answers `data` under the key that was written, `data` is not empty and
`Unmarshal(data) = n`, then `Put(id, n)` returns a nil error and the following
`Get(id)` returns the node `n` and a nil error. -/
theorem Get_after_Put (o : Cache ω) (pb : Codec) (w w' : ω) (id data : Bytes) (n : Node)
    (hm : pb.Marshal n = .ok data) (hne : data ≠ [])
    (hu : pb.Unmarshal data = .ok n)
    (hput : o.DB.Put w (StringToNodeID id).Bytes data = (none, w'))
    (hget : o.DB.Get w' (StringToNodeID id).Bytes = .ok data) :
    Cache.Put o pb w id n = (none, w') ∧ Cache.Get o pb w' id = (some n, none) := by
  have hkey : (StringToNodeID id).Bytes = id := rfl
  rw [hkey] at hget
  refine ⟨by simp [Cache.Put, hm, hput], ?_⟩
  have hz : IsZero data = false := by
    cases data with
    | nil => exact absurd rfl hne
    | cons b r => rfl
  simp [Cache.Get, hget, hz, hu]

/-- Witness of `Get_after_Put`: `Put("n1", nodeN1)` then `Get("n1")` on the simulated
store with the proto3 codec. -/
theorem Get_after_Put_witness :
    Cache.Put (simCache quietScript) proto3 Sim.init [110, 49] nodeN1
        = (none, ⟨[([110, 49], marshalNode nodeN1)],
                  [Event.put [110, 49] (marshalNode nodeN1) none]⟩)
      ∧ Cache.Get (simCache quietScript) proto3
          ⟨[([110, 49], marshalNode nodeN1)], [Event.put [110, 49] (marshalNode nodeN1) none]⟩
          [110, 49] = (some nodeN1, none) :=
  Get_after_Put (simCache quietScript) proto3 Sim.init _ [110, 49] (marshalNode nodeN1) nodeN1
    rfl (by decide) (by decide) (by decide) (by decide)

/-- C2: `Get` tells a miss from a store failure. An error of the store's `Get` is
returned as it is with no node; an empty value gives no node and no error; and a
node is returned only for a non-empty value that decodes to it, with a nil error. -/
theorem Get_miss_or_failure (o : Cache ω) (pb : Codec) (w : ω) (key : Bytes) :
    (∀ e, o.DB.Get w key = .error e → Cache.Get o pb w key = (none, some e))
      ∧ (o.DB.Get w key = .ok [] → Cache.Get o pb w key = (none, none))
      ∧ (∀ n e, Cache.Get o pb w key = (some n, e) →
          e = none ∧ ∃ b, o.DB.Get w key = .ok b ∧ b ≠ [] ∧ pb.Unmarshal b = .ok n) := by
  refine ⟨?_, ?_, ?_⟩
  · intro e he
    simp [Cache.Get, he]
  · intro h
    simp [Cache.Get, h, IsZero]
  · intro n e h
    unfold Cache.Get at h
    cases hg : o.DB.Get w key with
    | error err => simp [hg] at h
    | ok b =>
      simp only [hg] at h
      by_cases hz : IsZero b = true
      · simp [hz] at h
      · simp only [hz] at h
        cases hu : pb.Unmarshal b with
        | error err => simp [hu] at h
        | ok na =>
          simp [hu] at h
          refine ⟨h.2.symm, b, rfl, ?_, ?_⟩
          · intro hb
            apply hz
            simp [hb, IsZero]
          · rw [← h.1]; exact hu

/-- Witness of `Get_miss_or_failure`: a failing store, a miss on the empty store and
a hit on a store holding the proto3 bytes of `nodeN1`. -/
theorem Get_miss_or_failure_witness :
    Cache.Get (simCache getFailsScript) proto3 Sim.init [110, 49] = (none, some "store down")
      ∧ Cache.Get (simCache quietScript) proto3 Sim.init [110, 49] = (none, none)
      ∧ ∃ b, (simCache quietScript).DB.Get ⟨[([110, 49], marshalNode nodeN1)], []⟩ [110, 49]
            = .ok b ∧ b ≠ [] ∧ proto3.Unmarshal b = .ok nodeN1 :=
  ⟨(Get_miss_or_failure (simCache getFailsScript) proto3 Sim.init [110, 49]).1
      "store down" (by decide),
   (Get_miss_or_failure (simCache quietScript) proto3 Sim.init [110, 49]).2.1 (by decide),
   ((Get_miss_or_failure (simCache quietScript) proto3
      ⟨[([110, 49], marshalNode nodeN1)], []⟩ [110, 49]).2.2 nodeN1 none (by decide)).2⟩

/-- C3: `Put` is an idempotent upsert on the map store (a store that does not fail
and whose keys are pairwise distinct). (a) `Put(id, n1)` twice leaves the same
records as once. (b) After `Put(id, n1)` and `Put(id, n2)`, where `d2` is the
serialization of `n2`, the store holds exactly one record for `id`, its value is
`d2`, and the record of every other key is what it was. -/
theorem Put_idempotent_upsert (s : Script) (pb : Codec) (w : Sim) (id : Bytes) (n1 n2 : Node)
    (d2 : Bytes) (hstore : ∀ h k v, s.putErr h k v = none)
    (hmap : (w.kv.map Prod.fst).Nodup) (hm2 : pb.Marshal n2 = .ok d2) :
    (Cache.Put (simCache s) pb (Cache.Put (simCache s) pb w id n1).2 id n1).2.kv
        = (Cache.Put (simCache s) pb w id n1).2.kv
      ∧ lookup id (Cache.Put (simCache s) pb (Cache.Put (simCache s) pb w id n1).2 id n2).2.kv
        = some d2
      ∧ countKey id (Cache.Put (simCache s) pb (Cache.Put (simCache s) pb w id n1).2 id n2).2.kv
        = 1
      ∧ ∀ k, k ≠ id →
          lookup k (Cache.Put (simCache s) pb (Cache.Put (simCache s) pb w id n1).2 id n2).2.kv
            = lookup k w.kv := by
  have hkey : (StringToNodeID id).Bytes = id := rfl
  have hput : ∀ (w0 : Sim) (n : Node) (d : Bytes), pb.Marshal n = .ok d →
      (Cache.Put (simCache s) pb w0 id n).2.kv = upsert id d w0.kv := by
    intro w0 n d hm
    simp [Cache.Put, hm, simCache, simStore, hstore, hkey]
  have hfail : ∀ (w0 : Sim) (n : Node) (e : Err), pb.Marshal n = .error e →
      (Cache.Put (simCache s) pb w0 id n).2 = w0 := by
    intro w0 n e hm
    simp [Cache.Put, hm]
  cases hm1 : pb.Marshal n1 with
  | error e =>
    rw [hfail w n1 e hm1, hfail w n1 e hm1, hput w n2 d2 hm2]
    refine ⟨rfl, lookup_upsert_self id d2 w.kv, ?_, ?_⟩
    · exact countKey_upsert id d2 w.kv hmap
    · intro k hk
      exact lookup_upsert_ne id k d2 w.kv hk
  | ok d1 =>
    rw [hput _ n1 d1 hm1, hput _ n2 d2 hm2, hput w n1 d1 hm1]
    refine ⟨upsert_upsert_same id d1 w.kv, lookup_upsert_self id d2 _, ?_, ?_⟩
    · exact countKey_upsert id d2 _ (nodup_keys_upsert id d1 w.kv hmap)
    · intro k hk
      rw [lookup_upsert_ne id k d2 _ hk, lookup_upsert_ne id k d1 w.kv hk]

/-- Witness of `Put_idempotent_upsert`: `Put("n1", nodeN1)` and `Put("n1", nodeN2)`
on a store that holds a record of another key. -/
theorem Put_idempotent_upsert_witness :
    (Cache.Put (simCache quietScript) proto3
        (Cache.Put (simCache quietScript) proto3 ⟨[([120], [1])], []⟩ [110, 49] nodeN1).2
        [110, 49] nodeN1).2.kv
        = (Cache.Put (simCache quietScript) proto3 ⟨[([120], [1])], []⟩ [110, 49] nodeN1).2.kv
      ∧ lookup [110, 49] (Cache.Put (simCache quietScript) proto3
          (Cache.Put (simCache quietScript) proto3 ⟨[([120], [1])], []⟩ [110, 49] nodeN1).2
          [110, 49] nodeN2).2.kv = some (marshalNode nodeN2)
      ∧ countKey [110, 49] (Cache.Put (simCache quietScript) proto3
          (Cache.Put (simCache quietScript) proto3 ⟨[([120], [1])], []⟩ [110, 49] nodeN1).2
          [110, 49] nodeN2).2.kv = 1
      ∧ ∀ k, k ≠ [110, 49] →
          lookup k (Cache.Put (simCache quietScript) proto3
            (Cache.Put (simCache quietScript) proto3 ⟨[([120], [1])], []⟩ [110, 49] nodeN1).2
            [110, 49] nodeN2).2.kv = lookup k [([120], [1])] :=
  Put_idempotent_upsert quietScript proto3 ⟨[([120], [1])], []⟩ [110, 49] nodeN1 nodeN2
    (marshalNode nodeN2) (fun _ _ _ => rfl) (by decide) rfl

/-! ## Lemmas on the simulated world -/

theorem simCache_FindNode (s : Script) (w : Sim) (id : NodeID) :
    (simCache s).DHT.FindNode w id
      = (s.findNode w.log id,
          ⟨w.kv, w.log ++ [Event.findNode id (s.findNode w.log id).1 (s.findNode w.log id).2]⟩) :=
  rfl

theorem simCache_Ping (s : Script) (w : Sim) (n : Node) :
    (simCache s).DHT.Ping w n
      = (s.ping w.log n, ⟨w.kv, w.log ++ [Event.ping n (s.ping w.log n).1 (s.ping w.log n).2]⟩) :=
  rfl

theorem simCache_GetNodes (s : Script) (w : Sim) (start : Bytes) (limit : Int) :
    (simCache s).DHT.GetNodes w start limit
      = (s.getNodes w.log start limit,
          ⟨w.kv, w.log ++ [Event.getNodes start limit (s.getNodes w.log start limit).1
            (s.getNodes w.log start limit).2]⟩) :=
  rfl

theorem simCache_Put_ok (s : Script) (w : Sim) (k v : Bytes) (h : s.putErr w.log k v = none) :
    (simCache s).DB.Put w k v = (none, ⟨upsert k v w.kv, w.log ++ [Event.put k v none]⟩) := by
  simp [simCache, simStore, h]

theorem simCache_Put_err (s : Script) (w : Sim) (k v : Bytes) (e : Err)
    (h : s.putErr w.log k v = some e) :
    (simCache s).DB.Put w k v = (some e, ⟨w.kv, w.log ++ [Event.put k v (some e)]⟩) := by
  simp [simCache, simStore, h]

/-! ## Bootstrap -/

theorem bootstrapLoop_some (o : Cache ω) (pb : Codec) (v : Node) (rest : List (Option Node))
    (w : ω) :
    Cache.bootstrapLoop o pb (some v :: rest) w
      = match o.DHT.FindNode w (StringToNodeID v.Id) with
        | ((found, _), w1) =>
          match pb.Marshal found with
          | .error err => (some (Exit.ret (some err)), w1)
          | .ok node =>
            match o.DB.Put w1 (StringToNodeID found.Id).Bytes node with
            | (some err, w2) => (some (Exit.ret (some err)), w2)
            | (none, w2) => Cache.bootstrapLoop o pb rest w2 :=
  rfl

/-- The loop of `Bootstrap` over `xs ++ ys` runs the loop over `xs` and, when that
did not return, the loop over `ys`. -/
theorem bootstrapLoop_append (o : Cache ω) (pb : Codec) (xs ys : List (Option Node)) (w : ω) :
    Cache.bootstrapLoop o pb (xs ++ ys) w
      = match Cache.bootstrapLoop o pb xs w with
        | (some e, w') => (some e, w')
        | (none, w') => Cache.bootstrapLoop o pb ys w' := by
  induction xs generalizing w with
  | nil => rfl
  | cons x xs ih =>
    cases x with
    | none => rfl
    | some v =>
      rw [List.cons_append, bootstrapLoop_some, bootstrapLoop_some]
      rcases o.DHT.FindNode w (StringToNodeID v.Id) with ⟨⟨found, ferr⟩, w1⟩
      dsimp only
      cases pb.Marshal found with
      | error err => rfl
      | ok data =>
        dsimp only
        rcases o.DB.Put w1 (StringToNodeID found.Id).Bytes data with ⟨perr, w2⟩
        cases perr with
        | some e => rfl
        | none => exact ih w2

/-- C6: a store failure is fatal to `Bootstrap`. When `GetNodes` returned
`pre ++ v :: post`, the walk over the nodes before `v` did not return, and the `Put`
of the node found for `v` fails with `e`, then `Bootstrap` returns exactly `e`; the
world it leaves is the one the failing `Put` left, whose log ends with the
`FindNode` of `v` and that `Put` (no call is made for `post`), and whose records are
those the walk over `pre` had written. -/
theorem Bootstrap_store_failure (s : Script) (pb : Codec) (w w1 w2 w3 w4 : Sim)
    (pre post : List (Option Node)) (v found : Node) (gerr ferr : Option Err)
    (data : Bytes) (e : Err)
    (hG : (simCache s).DHT.GetNodes w [48] 1280 = ((pre ++ some v :: post, gerr), w1))
    (hpre : Cache.bootstrapLoop (simCache s) pb pre w1 = (none, w2))
    (hF : (simCache s).DHT.FindNode w2 (StringToNodeID v.Id) = ((found, ferr), w3))
    (hM : pb.Marshal found = .ok data)
    (hP : (simCache s).DB.Put w3 (StringToNodeID found.Id).Bytes data = (some e, w4)) :
    Cache.Bootstrap (simCache s) pb w = (Exit.ret (some e), w4)
      ∧ w4.log = w2.log ++ [Event.findNode (StringToNodeID v.Id) found ferr,
                            Event.put found.Id data (some e)]
      ∧ w4.kv = w2.kv := by
  have hrun : Cache.Bootstrap (simCache s) pb w = (Exit.ret (some e), w4) := by
    simp [Cache.Bootstrap, hG, bootstrapLoop_append, hpre, Cache.bootstrapLoop, hF, hM, hP]
  refine ⟨hrun, ?_, ?_⟩
  · rw [simCache_FindNode] at hF
    have h3 : w3 = ⟨w2.kv, w2.log ++ [Event.findNode (StringToNodeID v.Id) found ferr]⟩ := by
      have h1 := congrArg Prod.snd hF
      have h2 := congrArg Prod.fst hF
      simp only at h1 h2
      rw [← h1, h2]
    cases hs : s.putErr w3.log (StringToNodeID found.Id).Bytes data with
    | none =>
      rw [simCache_Put_ok s w3 _ _ hs] at hP
      simp at hP
    | some e' =>
      rw [simCache_Put_err s w3 _ _ e' hs] at hP
      have h4 := congrArg Prod.snd hP
      have h5 := congrArg Prod.fst hP
      simp only [Option.some.injEq] at h4 h5
      rw [← h4, h3, h5]
      simp [StringToNodeID, NodeID.Bytes]
  · rw [simCache_FindNode] at hF
    have h1 := congrArg Prod.snd hF
    simp only at h1
    cases hs : s.putErr w3.log (StringToNodeID found.Id).Bytes data with
    | none =>
      rw [simCache_Put_ok s w3 _ _ hs] at hP
      simp at hP
    | some e' =>
      rw [simCache_Put_err s w3 _ _ e' hs] at hP
      have h4 := congrArg Prod.snd hP
      simp only at h4
      rw [← h4, ← h1]

/-- Witness of `Bootstrap_store_failure`: the DHT lists `n1, n2, n3` and the store
refuses the write of `n2`. -/
theorem Bootstrap_store_failure_witness :
    (Cache.Bootstrap (simCache (putFailsScript [nodeN1, nodeN2, nodeN3] [110, 50])) proto3
        Sim.init).1 = Exit.ret (some "disk full")
      ∧ (Cache.Bootstrap (simCache (putFailsScript [nodeN1, nodeN2, nodeN3] [110, 50])) proto3
          Sim.init).2.log
        = [Event.getNodes [48] 1280 [some nodeN1, some nodeN2, some nodeN3] none,
           Event.findNode ⟨[110, 49]⟩ nodeN1 none,
           Event.put [110, 49] (marshalNode nodeN1) none,
           Event.findNode ⟨[110, 50]⟩ nodeN2 none,
           Event.put [110, 50] (marshalNode nodeN2) (some "disk full")]
      ∧ (Cache.Bootstrap (simCache (putFailsScript [nodeN1, nodeN2, nodeN3] [110, 50])) proto3
          Sim.init).2.kv = [([110, 49], marshalNode nodeN1)] := by
  have h := Bootstrap_store_failure (putFailsScript [nodeN1, nodeN2, nodeN3] [110, 50]) proto3
    Sim.init
    ⟨[], [Event.getNodes [48] 1280 [some nodeN1, some nodeN2, some nodeN3] none]⟩
    ⟨[([110, 49], marshalNode nodeN1)],
      [Event.getNodes [48] 1280 [some nodeN1, some nodeN2, some nodeN3] none,
       Event.findNode ⟨[110, 49]⟩ nodeN1 none,
       Event.put [110, 49] (marshalNode nodeN1) none]⟩
    ⟨[([110, 49], marshalNode nodeN1)],
      [Event.getNodes [48] 1280 [some nodeN1, some nodeN2, some nodeN3] none,
       Event.findNode ⟨[110, 49]⟩ nodeN1 none,
       Event.put [110, 49] (marshalNode nodeN1) none,
       Event.findNode ⟨[110, 50]⟩ nodeN2 none]⟩
    ⟨[([110, 49], marshalNode nodeN1)],
      [Event.getNodes [48] 1280 [some nodeN1, some nodeN2, some nodeN3] none,
       Event.findNode ⟨[110, 49]⟩ nodeN1 none,
       Event.put [110, 49] (marshalNode nodeN1) none,
       Event.findNode ⟨[110, 50]⟩ nodeN2 none,
       Event.put [110, 50] (marshalNode nodeN2) (some "disk full")]⟩
    [some nodeN1] [some nodeN3] nodeN2 nodeN2 none none (marshalNode nodeN2) "disk full"
    (by decide) (by decide) (by decide) rfl (by decide)
  rw [h.1]
  exact ⟨rfl, by decide, by decide⟩

/-- The loop of `Bootstrap` in a world where no serialization and no `Put` fails:
it runs to its end and logs one `FindNode` and one `Put` per node. -/
theorem bootstrapLoop_no_failure (s : Script) (pb : Codec)
    (hM : ∀ h id, ∃ d, pb.Marshal (s.findNode h id).1 = .ok d)
    (hstore : ∀ h k v, s.putErr h k v = none)
    (L : List Node) (w : Sim) :
    ∃ tr, Cache.bootstrapLoop (simCache s) pb (L.map some) w
        = (none, ⟨(Cache.bootstrapLoop (simCache s) pb (L.map some) w).2.kv, w.log ++ tr⟩)
      ∧ tr.countP Event.isFindNode = L.length ∧ tr.countP Event.isPut = L.length := by
  induction L generalizing w with
  | nil => exact ⟨[], by simp [Cache.bootstrapLoop], rfl, rfl⟩
  | cons v rest ih =>
    obtain ⟨d, hd⟩ := hM w.log (StringToNodeID v.Id)
    rw [List.map_cons, bootstrapLoop_some, simCache_FindNode]
    simp only [hd]
    rw [simCache_Put_ok s _ _ _ (hstore _ _ _)]
    simp only
    obtain ⟨tr, h1, h2, h3⟩ := ih
      ⟨upsert (StringToNodeID (s.findNode w.log (StringToNodeID v.Id)).1.Id).Bytes d w.kv,
       w.log ++ [Event.findNode (StringToNodeID v.Id) (s.findNode w.log (StringToNodeID v.Id)).1
          (s.findNode w.log (StringToNodeID v.Id)).2]
        ++ [Event.put (StringToNodeID (s.findNode w.log (StringToNodeID v.Id)).1.Id).Bytes d none]⟩
    refine ⟨Event.findNode (StringToNodeID v.Id) (s.findNode w.log (StringToNodeID v.Id)).1
          (s.findNode w.log (StringToNodeID v.Id)).2
        :: Event.put (StringToNodeID (s.findNode w.log (StringToNodeID v.Id)).1.Id).Bytes d none
        :: tr, ?_, ?_, ?_⟩
    · rw [h1]
      simp
    · simp [List.countP_cons, Event.isFindNode, h2]
    · simp [List.countP_cons, Event.isPut, h3]

/-- C7 (as stated, when `GetNodes` fails): the DHT fails `GetNodes` with
`"dht down"`, no serialization and no `Put` fails (none is even attempted), and
`Bootstrap` returns the error `"dht down"`, not nil. -/
theorem Bootstrap_GetNodes_failure_returned :
    Cache.Bootstrap (simCache getNodesFailsScript) proto3 Sim.init
      = (Exit.ret (some "dht down"), ⟨[], [Event.getNodes [48] 1280 [] (some "dht down")]⟩) := by
  decide

/-- C7 (amended): `Bootstrap` tolerates `FindNode` failures. When `GetNodes` answers
the nodes `L` with the error `gerr`, and the serialization of whatever node
`FindNode` answers and every store `Put` succeed, then whatever `FindNode` answers
(errors included) the walk is not aborted: after the `GetNodes` call the log holds
one `FindNode` and one `Put` for every node of `L`, and `Bootstrap` returns `gerr`,
which is nil exactly when `GetNodes` succeeded. -/
theorem Bootstrap_tolerates_FindNode_failure (s : Script) (pb : Codec) (w : Sim)
    (L : List Node) (gerr : Option Err)
    (hG : s.getNodes w.log [48] 1280 = (L.map some, gerr))
    (hM : ∀ h id, ∃ d, pb.Marshal (s.findNode h id).1 = .ok d)
    (hstore : ∀ h k v, s.putErr h k v = none) :
    (Cache.Bootstrap (simCache s) pb w).1 = Exit.ret gerr
      ∧ ∃ tr, (Cache.Bootstrap (simCache s) pb w).2.log
            = w.log ++ Event.getNodes [48] 1280 (L.map some) gerr :: tr
          ∧ tr.countP Event.isFindNode = L.length ∧ tr.countP Event.isPut = L.length := by
  obtain ⟨tr, h1, h2, h3⟩ := bootstrapLoop_no_failure s pb hM hstore L
    ⟨w.kv, w.log ++ [Event.getNodes [48] 1280 (L.map some) gerr]⟩
  have hrun : Cache.Bootstrap (simCache s) pb w
      = (Exit.ret gerr, ⟨(Cache.bootstrapLoop (simCache s) pb (L.map some)
          ⟨w.kv, w.log ++ [Event.getNodes [48] 1280 (L.map some) gerr]⟩).2.kv,
          w.log ++ [Event.getNodes [48] 1280 (L.map some) gerr] ++ tr⟩) := by
    unfold Cache.Bootstrap
    rw [simCache_GetNodes, hG]
    simp only
    rw [h1]
  rw [hrun]
  exact ⟨rfl, tr, by simp, h2, h3⟩

/-- Witness of `Bootstrap_tolerates_FindNode_failure`: the DHT lists `n1, n2` and
fails every `FindNode`. -/
theorem Bootstrap_tolerates_FindNode_failure_witness :
    (Cache.Bootstrap (simCache (findFailsScript [nodeN1, nodeN2])) proto3 Sim.init).1
        = Exit.ret none
      ∧ ∃ tr, (Cache.Bootstrap (simCache (findFailsScript [nodeN1, nodeN2])) proto3
              Sim.init).2.log
            = Sim.init.log ++ Event.getNodes [48] 1280 ([nodeN1, nodeN2].map some) none :: tr
          ∧ tr.countP Event.isFindNode = [nodeN1, nodeN2].length
          ∧ tr.countP Event.isPut = [nodeN1, nodeN2].length :=
  Bootstrap_tolerates_FindNode_failure (findFailsScript [nodeN1, nodeN2]) proto3 Sim.init
    [nodeN1, nodeN2] none rfl (fun _ _ => ⟨[], rfl⟩) (fun _ _ _ => rfl)
/-- The loop of `Bootstrap` logs the walk that `walkTraceOK` describes. -/
theorem bootstrapLoop_walk (s : Script) (pb : Codec) (nodes : List (Option Node)) (w : Sim) :
    ∃ tr, (Cache.bootstrapLoop (simCache s) pb nodes w).2.log = w.log ++ tr
      ∧ walkTraceOK pb nodes tr = true := by
  induction nodes generalizing w with
  | nil => exact ⟨[], by simp [Cache.bootstrapLoop], rfl⟩
  | cons x rest ih =>
    cases x with
    | none => exact ⟨[], by simp [Cache.bootstrapLoop], rfl⟩
    | some v =>
      rw [bootstrapLoop_some, simCache_FindNode]
      cases hd : pb.Marshal (s.findNode w.log (StringToNodeID v.Id)).1 with
      | error err =>
        refine ⟨[Event.findNode (StringToNodeID v.Id) (s.findNode w.log (StringToNodeID v.Id)).1
          (s.findNode w.log (StringToNodeID v.Id)).2], by simp [hd], ?_⟩
        simp [walkTraceOK, hd]
      | ok d =>
        simp only [hd]
        cases hs : s.putErr
            (w.log ++ [Event.findNode (StringToNodeID v.Id)
              (s.findNode w.log (StringToNodeID v.Id)).1
              (s.findNode w.log (StringToNodeID v.Id)).2])
            (StringToNodeID (s.findNode w.log (StringToNodeID v.Id)).1.Id).Bytes d with
        | some e =>
          rw [simCache_Put_err s _ _ _ e hs]
          refine ⟨[Event.findNode (StringToNodeID v.Id)
              (s.findNode w.log (StringToNodeID v.Id)).1
              (s.findNode w.log (StringToNodeID v.Id)).2,
            Event.put (StringToNodeID (s.findNode w.log (StringToNodeID v.Id)).1.Id).Bytes d
              (some e)], by simp, ?_⟩
          simp [walkTraceOK, hd]
        | none =>
          rw [simCache_Put_ok s _ _ _ hs]
          simp only
          obtain ⟨tr, h1, h2⟩ := ih
            ⟨upsert (StringToNodeID (s.findNode w.log (StringToNodeID v.Id)).1.Id).Bytes d w.kv,
             w.log ++ [Event.findNode (StringToNodeID v.Id)
                (s.findNode w.log (StringToNodeID v.Id)).1
                (s.findNode w.log (StringToNodeID v.Id)).2]
              ++ [Event.put (StringToNodeID (s.findNode w.log (StringToNodeID v.Id)).1.Id).Bytes
                d none]⟩
          refine ⟨Event.findNode (StringToNodeID v.Id)
                (s.findNode w.log (StringToNodeID v.Id)).1
                (s.findNode w.log (StringToNodeID v.Id)).2
              :: Event.put (StringToNodeID (s.findNode w.log (StringToNodeID v.Id)).1.Id).Bytes
                d none
              :: tr, ?_, ?_⟩
          · rw [h1]
            simp
          · simp [walkTraceOK, hd, h2]

/-- A log accepted by `walkTraceOK` holds `FindNode` and `Put` calls only. -/
theorem walkTraceOK_events (pb : Codec) (nodes : List (Option Node)) (tr : List Event)
    (h : walkTraceOK pb nodes tr = true) :
    ∀ ev ∈ tr, ev.isFindNode = true ∨ ev.isPut = true := by
  induction nodes generalizing tr with
  | nil =>
    cases tr with
    | nil => simp
    | cons a t => simp [walkTraceOK] at h
  | cons x rest ih =>
    cases x with
    | none =>
      cases tr with
      | nil => simp
      | cons a t => simp [walkTraceOK] at h
    | some v =>
      cases tr with
      | nil => simp
      | cons a t =>
        cases a with
        | findNode id found ferr =>
          simp only [walkTraceOK, Bool.and_eq_true] at h
          intro ev hev
          rcases List.mem_cons.mp hev with hev1 | hev1
          · left; rw [hev1]; rfl
          · have h2 := h.2
            cases hd : pb.Marshal found with
            | error err =>
              rw [hd] at h2
              have ht : t = [] := by simpa using h2
              rw [ht] at hev1
              simp at hev1
            | ok value =>
              rw [hd] at h2
              cases t with
              | nil => simp at hev1
              | cons b t' =>
                cases b with
                | put key val perr =>
                  simp only [Bool.and_eq_true] at h2
                  rcases List.mem_cons.mp hev1 with hev2 | hev2
                  · right; rw [hev2]; rfl
                  · cases perr with
                    | none => exact ih t' h2.2 ev hev2
                    | some e =>
                      have ht : t' = [] := by simpa using h2.2
                      rw [ht] at hev2
                      simp at hev2
                | randRead _ _ => simp at h2
                | getNodes _ _ _ _ => simp at h2
                | findNode _ _ _ => simp at h2
                | ping _ _ _ => simp at h2
        | randRead _ _ => simp [walkTraceOK] at h
        | getNodes _ _ _ _ => simp [walkTraceOK] at h
        | ping _ _ _ => simp [walkTraceOK] at h
        | put _ _ _ => simp [walkTraceOK] at h

/-- C10 (as stated, at a node that does not serialize): the DHT lists and finds the
node with ID `"\xff"` and the node `n2`, and no `Put` fails. `Bootstrap` calls
`FindNode` for the first node and then returns the error of `proto.Marshal`: no
`Put` is issued for that node and neither `FindNode` nor `Put` for `n2`, although no
`Put` failed. -/
theorem Bootstrap_serialization_failure_ends_walk :
    Cache.Bootstrap (simCache (netScript [nodeBad, nodeN2])) proto3 Sim.init
      = (Exit.ret (some "proto: invalid UTF-8 string"),
          ⟨[],
           [Event.getNodes [48] 1280 [some nodeBad, some nodeN2] none,
            Event.findNode ⟨[255]⟩ nodeBad none]⟩) := by
  decide

/-- The log of `Bootstrap` when `GetNodes` answers `nodes` and `gerr`. -/
theorem walk_of_GetNodes (s : Script) (pb : Codec) (w : Sim) (nodes : List (Option Node))
    (gerr : Option Err) (hG : s.getNodes w.log [48] 1280 = (nodes, gerr)) :
    ∃ tr, (Cache.Bootstrap (simCache s) pb w).2.log
          = w.log ++ Event.getNodes [48] 1280 nodes gerr :: tr
        ∧ walkTraceOK pb nodes tr = true
        ∧ ∀ ev ∈ tr, ev.isFindNode = true ∨ ev.isPut = true := by
  obtain ⟨tr, h1, h2⟩ := bootstrapLoop_walk s pb nodes
    ⟨w.kv, w.log ++ [Event.getNodes [48] 1280 nodes gerr]⟩
  refine ⟨tr, ?_, h2, walkTraceOK_events pb _ tr h2⟩
  have hlog : (Cache.Bootstrap (simCache s) pb w).2.log
      = (Cache.bootstrapLoop (simCache s) pb nodes
          ⟨w.kv, w.log ++ [Event.getNodes [48] 1280 nodes gerr]⟩).2.log := by
    unfold Cache.Bootstrap
    rw [simCache_GetNodes, hG]
    simp only
    rcases Cache.bootstrapLoop (simCache s) pb nodes
      ⟨w.kv, w.log ++ [Event.getNodes [48] 1280 nodes gerr]⟩ with ⟨r, w2⟩
    cases r <;> rfl
  rw [hlog, h1]
  simp

/-- C10 (amended): the calls of `Bootstrap`. For every codec and every world, the log
of `Bootstrap` is one `GetNodes("0", 1280)` call followed by `FindNode` and `Put`
calls only, and these are the walk `walkTraceOK` describes over the slice that
`GetNodes` returned: for each entry in order one `FindNode` of the node's ID and,
when the node `FindNode` returned serializes, one `Put` of that node (key its ID
bytes, value its serialization), whether `FindNode` returned an error or not; the
walk ends at a nil entry, after the `FindNode` whose node does not serialize, and
after the first `Put` that fails. -/
theorem Bootstrap_walk (s : Script) (pb : Codec) (w : Sim) :
    ∃ tr, (Cache.Bootstrap (simCache s) pb w).2.log
          = w.log ++ Event.getNodes [48] 1280 (s.getNodes w.log [48] 1280).1
              (s.getNodes w.log [48] 1280).2 :: tr
        ∧ walkTraceOK pb (s.getNodes w.log [48] 1280).1 tr = true
        ∧ ∀ ev ∈ tr, ev.isFindNode = true ∨ ev.isPut = true :=
  walk_of_GetNodes s pb w _ _ rfl

/-- Witness of `Bootstrap_walk`: the DHT lists `n1, n2` and fails every `FindNode`
with the zero-value node; each failed `FindNode` is followed by a `Put` under the
empty key, and the store ends with a record under the empty key. -/
theorem Bootstrap_walk_witness :
    (∃ tr, (Cache.Bootstrap (simCache (findFailsScript [nodeN1, nodeN2])) proto3 Sim.init).2.log
          = Sim.init.log ++ Event.getNodes [48] 1280 [some nodeN1, some nodeN2] none :: tr
        ∧ walkTraceOK proto3 [some nodeN1, some nodeN2] tr = true
        ∧ ∀ ev ∈ tr, ev.isFindNode = true ∨ ev.isPut = true)
      ∧ Cache.Bootstrap (simCache (findFailsScript [nodeN1, nodeN2])) proto3 Sim.init
        = (Exit.ret none,
            ⟨[([], [])],
             [Event.getNodes [48] 1280 [some nodeN1, some nodeN2] none,
              Event.findNode ⟨[110, 49]⟩ Node.zero (some "node not found"),
              Event.put [] [] none,
              Event.findNode ⟨[110, 50]⟩ Node.zero (some "node not found"),
              Event.put [] [] none]⟩) :=
  ⟨Bootstrap_walk (findFailsScript [nodeN1, nodeN2]) proto3 Sim.init, by decide⟩

/-- C8 (as stated, at the zero-value node): the DHT lists the single node `Node{}`,
`FindNode` succeeds and returns it, nothing fails, the store is empty before. After
`Bootstrap` the store holds one record, but `Get` of the node's ID returns no node:
the record's value, the serialization of `Node{}`, is empty. -/
theorem Bootstrap_zero_node_not_retrievable :
    Cache.Bootstrap (simCache (netScript [Node.zero])) proto3 Sim.init
        = (Exit.ret none,
            ⟨[([], [])],
             [Event.getNodes [48] 1280 [some Node.zero] none,
              Event.findNode ⟨[]⟩ Node.zero none,
              Event.put [] [] none]⟩)
      ∧ proto3.Unmarshal (marshalNode Node.zero) = .ok Node.zero
      ∧ Cache.Get (simCache (netScript [Node.zero])) proto3
          (Cache.Bootstrap (simCache (netScript [Node.zero])) proto3 Sim.init).2 Node.zero.Id
        = (none, none) := by
  decide

theorem lookup_foldl_upsert_not_mem (enc : Node → Bytes) (k : Bytes) (L : List Node)
    (kv : List (Bytes × Bytes)) (h : k ∉ L.map Node.Id) :
    lookup k (L.foldl (fun m v => upsert v.Id (enc v) m) kv) = lookup k kv := by
  induction L generalizing kv with
  | nil => rfl
  | cons v rest ih =>
    simp only [List.map_cons, List.mem_cons, not_or] at h
    rw [List.foldl_cons, ih _ h.2, lookup_upsert_ne v.Id k (enc v) kv h.1]

theorem lookup_foldl_upsert_mem (enc : Node → Bytes) (L : List Node)
    (kv : List (Bytes × Bytes)) (hn : (L.map Node.Id).Nodup) (v : Node) (hv : v ∈ L) :
    lookup v.Id (L.foldl (fun m v => upsert v.Id (enc v) m) kv) = some (enc v) := by
  induction L generalizing kv with
  | nil => simp at hv
  | cons v0 rest ih =>
    simp only [List.map_cons, List.nodup_cons] at hn
    rw [List.foldl_cons]
    rcases List.mem_cons.mp hv with h | h
    · subst h
      rw [lookup_foldl_upsert_not_mem enc v.Id rest _ hn.1, lookup_upsert_self]
    · exact ih _ hn.2 h

theorem length_foldl_upsert (enc : Node → Bytes) (L : List Node) (kv : List (Bytes × Bytes))
    (hn : (L.map Node.Id).Nodup) (hfresh : ∀ v ∈ L, v.Id ∉ kv.map Prod.fst) :
    (L.foldl (fun m v => upsert v.Id (enc v) m) kv).length = kv.length + L.length := by
  induction L generalizing kv with
  | nil => rfl
  | cons v0 rest ih =>
    simp only [List.map_cons, List.nodup_cons] at hn
    have h0 : v0.Id ∉ kv.map Prod.fst := hfresh v0 (List.mem_cons_self _ _)
    rw [List.foldl_cons, ih _ hn.2, length_upsert_not_mem _ _ _ h0, List.length_cons]
    · omega
    · intro v hv
      rw [keys_upsert_not_mem _ _ _ h0]
      intro hmem
      rcases List.mem_append.mp hmem with h | h
      · exact hfresh v (List.mem_cons_of_mem _ hv) h
      · have hid : v.Id = v0.Id := by simpa using h
        exact hn.1 (hid ▸ List.mem_map_of_mem Node.Id hv)

/-- The loop of `Bootstrap` when `FindNode` finds, for each listed node `v`, the node
`f v` with the ID of `v`, and no serialization and no `Put` fails: the loop runs to
its end and has upserted, in order, `v.Id ↦ enc v` for each node. -/
theorem bootstrapLoop_populates (s : Script) (pb : Codec) (f : Node → Node)
    (enc : Node → Bytes) (hstore : ∀ h k v, s.putErr h k v = none) (L : List Node) (w : Sim)
    (hF : ∀ h v, v ∈ L → s.findNode h (StringToNodeID v.Id) = (f v, none))
    (hfid : ∀ v ∈ L, (f v).Id = v.Id)
    (hcodec : ∀ v ∈ L, pb.Marshal (f v) = .ok (enc v)) :
    ∃ lg, Cache.bootstrapLoop (simCache s) pb (L.map some) w
      = (none, ⟨L.foldl (fun m v => upsert v.Id (enc v) m) w.kv, lg⟩) := by
  induction L generalizing w with
  | nil => exact ⟨w.log, rfl⟩
  | cons v rest ih =>
    have hv : v ∈ v :: rest := List.mem_cons_self _ _
    rw [List.map_cons, bootstrapLoop_some, simCache_FindNode, hF w.log v hv]
    simp only [hcodec v hv]
    rw [simCache_Put_ok s _ _ _ (hstore _ _ _)]
    simp only
    obtain ⟨lg, h⟩ := ih
      ⟨upsert (StringToNodeID (f v).Id).Bytes (enc v) w.kv,
       w.log ++ [Event.findNode (StringToNodeID v.Id) (f v) none]
        ++ [Event.put (StringToNodeID (f v).Id).Bytes (enc v) none]⟩
      (fun h v' hv' => hF h v' (List.mem_cons_of_mem _ hv'))
      (fun v' hv' => hfid v' (List.mem_cons_of_mem _ hv'))
      (fun v' hv' => hcodec v' (List.mem_cons_of_mem _ hv'))
    refine ⟨lg, ?_⟩
    rw [h]
    have hk : (StringToNodeID (f v).Id).Bytes = v.Id := hfid v hv
    simp [hk]

/-- C8 (amended): `Bootstrap` populates an empty cache with every discovered node
whose serialization is not empty. When `GetNodes` answers the nodes `L` (pairwise
distinct IDs), `FindNode` succeeds for each `v` of `L` with a node `f v` of the same
ID, the store does not fail and is empty before, and each `f v` has a non-empty
serialization that decodes back to it, then `Bootstrap` returns the error of
`GetNodes`, the store holds exactly `|L|` records, and `Get(v.Id)` returns `f v`
with a nil error for every `v` of `L`. -/
theorem Bootstrap_populates (s : Script) (pb : Codec) (w : Sim) (L : List Node)
    (gerr : Option Err) (f : Node → Node) (enc : Node → Bytes)
    (hinit : w.kv = [])
    (hG : s.getNodes w.log [48] 1280 = (L.map some, gerr))
    (hids : (L.map Node.Id).Nodup)
    (hF : ∀ h v, v ∈ L → s.findNode h (StringToNodeID v.Id) = (f v, none))
    (hfid : ∀ v ∈ L, (f v).Id = v.Id)
    (hstore : ∀ h k v, s.putErr h k v = none) (hget : ∀ h k, s.getErr h k = none)
    (hcodec : ∀ v ∈ L, pb.Marshal (f v) = .ok (enc v) ∧ enc v ≠ []
      ∧ pb.Unmarshal (enc v) = .ok (f v)) :
    (Cache.Bootstrap (simCache s) pb w).1 = Exit.ret gerr
      ∧ (Cache.Bootstrap (simCache s) pb w).2.kv.length = L.length
      ∧ ∀ v ∈ L, Cache.Get (simCache s) pb (Cache.Bootstrap (simCache s) pb w).2 v.Id
          = (some (f v), none) := by
  obtain ⟨lg, h⟩ := bootstrapLoop_populates s pb f enc hstore L
    ⟨w.kv, w.log ++ [Event.getNodes [48] 1280 (L.map some) gerr]⟩ hF hfid
    (fun v hv => (hcodec v hv).1)
  have hrun : Cache.Bootstrap (simCache s) pb w
      = (Exit.ret gerr, ⟨L.foldl (fun m v => upsert v.Id (enc v) m) [], lg⟩) := by
    unfold Cache.Bootstrap
    rw [simCache_GetNodes, hG]
    simp only
    rw [h, hinit]
  rw [hrun]
  refine ⟨rfl, ?_, ?_⟩
  · have := length_foldl_upsert enc L [] hids (by simp)
    simpa using this
  · intro v hv
    obtain ⟨_, hne, hu⟩ := hcodec v hv
    have hl := lookup_foldl_upsert_mem enc L [] hids v hv
    have hz : IsZero (enc v) = false := by
      cases hv' : enc v with
      | nil => exact absurd hv' hne
      | cons b r => rfl
    simp [Cache.Get, simCache, simStore, hget, hl, hz, hu]

/-- Witness of `Bootstrap_populates`: the DHT lists and finds `n1, n2, n3`, the
store is empty before. -/
theorem Bootstrap_populates_witness :
    (Cache.Bootstrap (simCache (netScript [nodeN1, nodeN2, nodeN3])) proto3 Sim.init).1
        = Exit.ret none
      ∧ (Cache.Bootstrap (simCache (netScript [nodeN1, nodeN2, nodeN3])) proto3
          Sim.init).2.kv.length = [nodeN1, nodeN2, nodeN3].length
      ∧ ∀ v ∈ [nodeN1, nodeN2, nodeN3],
          Cache.Get (simCache (netScript [nodeN1, nodeN2, nodeN3])) proto3
            (Cache.Bootstrap (simCache (netScript [nodeN1, nodeN2, nodeN3])) proto3 Sim.init).2
            v.Id = (some v, none) :=
  Bootstrap_populates (netScript [nodeN1, nodeN2, nodeN3]) proto3 Sim.init
    [nodeN1, nodeN2, nodeN3] none (fun v => v) marshalNode rfl rfl (by decide)
    (by
      intro h v hv
      simp only [List.mem_cons, List.mem_singleton, List.not_mem_nil, or_false] at hv
      rcases hv with hv | hv | hv <;> subst hv <;> rfl)
    (fun _ _ => rfl) (fun _ _ _ => rfl) (fun _ _ => rfl)
    (by
      intro v hv
      simp only [List.mem_cons, List.mem_singleton, List.not_mem_nil, or_false] at hv
      rcases hv with hv | hv | hv <;> subst hv <;> decide)
/-! ## Refresh -/

theorem refreshNear_some (o : Cache ω) (node : Node) (rest : List (Option Node)) (w : ω) :
    Cache.refreshNear o (some node :: rest) w
      = match o.DHT.Ping w node with
        | ((_, some err), w1) => (some (Exit.ret (some err)), w1)
        | ((pinged, none), w1) =>
          match pinged.Address with
          | none => (some Exit.panic, w1)
          | some a =>
            match o.DB.Put w1 pinged.Id a.Address with
            | (some err, w2) => (some (Exit.ret (some err)), w2)
            | (none, w2) => Cache.refreshNear o rest w2 :=
  rfl

theorem refreshAll_some (o : Cache ω) (node : Node) (rest : List (Option Node)) (w : ω) :
    Cache.refreshAll o (some node :: rest) w
      = match o.DHT.Ping w node with
        | ((_, some err), w1) => (some (Exit.ret (some err)), w1)
        | ((pinged, none), w1) =>
          match pinged.Address with
          | none => (some Exit.panic, w1)
          | some a =>
            match o.DB.Put w1 pinged.Id a.Address with
            | (some err, w2) => (some (Exit.ret (some err)), w2)
            | (none, w2) => Cache.refreshAll o rest w2 :=
  rfl

/-- The two loops of `Refresh` compute the same function. -/
theorem refreshAll_eq_refreshNear (o : Cache ω) (nodes : List (Option Node)) (w : ω) :
    Cache.refreshAll o nodes w = Cache.refreshNear o nodes w := by
  induction nodes generalizing w with
  | nil => rfl
  | cons x rest ih =>
    cases x with
    | none => rfl
    | some node =>
      rw [refreshAll_some, refreshNear_some]
      rcases o.DHT.Ping w node with ⟨⟨pinged, perr⟩, w1⟩
      cases perr with
      | some e => rfl
      | none =>
        dsimp only
        cases pinged.Address with
        | none => rfl
        | some a =>
          dsimp only
          rcases o.DB.Put w1 pinged.Id a.Address with ⟨e, w2⟩
          cases e with
          | some e => rfl
          | none => exact ih w2

theorem clean_nil : Clean [] := by
  intro ev h
  simp at h

theorem clean_append (a b : List Event) (ha : Clean a) (hb : Clean b) : Clean (a ++ b) := by
  intro ev h
  rcases List.mem_append.mp h with h | h
  · exact ha ev h
  · exact hb ev h

theorem clean_singleton (ev : Event) (h : ev.err = none) : Clean [ev] := by
  intro ev' h'
  simp only [List.mem_singleton] at h'
  rw [h']
  exact h

theorem stops_prepend (r : Option Exit) (pre tr : List Event) (hpre : Clean pre)
    (h : Stops r tr) : Stops r (pre ++ tr) := by
  rcases h with h | ⟨init, ev, e, h1, h2, h3, h4⟩
  · exact Or.inl (clean_append pre tr hpre h)
  · refine Or.inr ⟨pre ++ init, ev, e, ?_, clean_append pre init hpre h2, h3, h4⟩
    rw [h1, List.append_assoc]

theorem stops_none_clean (tr : List Event) (h : Stops none tr) : Clean tr := by
  rcases h with h | ⟨_, _, _, _, _, _, h4⟩
  · exact h
  · simp at h4

/-- In a log that `Stops` describes, a call that returned an error is the last call
and its error is what the run returned. -/
theorem stops_last (x : Exit) (tr pre post : List Event) (ev : Event) (e : Err)
    (h : Stops (some x) tr) (htr : tr = pre ++ ev :: post) (hev : ev.err = some e) :
    post = [] ∧ x = Exit.ret (some e) := by
  have hmem : ev ∈ tr := by rw [htr]; simp
  rcases h with h | ⟨init, ev', e', h1, h2, h3, h4⟩
  · have := h ev hmem
    rw [hev] at this
    simp at this
  · rcases List.eq_nil_or_concat post with hp | ⟨post', z, hp⟩
    · subst hp
      rw [h1] at htr
      have hlast := List.append_inj' htr rfl
      have hev' : ev' = ev := by simpa using hlast.2
      rw [hev', hev] at h3
      simp only [Option.some.injEq] at h3 h4
      exact ⟨rfl, by rw [h4, h3]⟩
    · exfalso
      rw [h1, hp] at htr
      have htr' : init ++ [ev'] = (pre ++ ev :: post') ++ [z] := by
        rw [htr]; simp
      have hinit := (List.append_inj' htr' rfl).1
      have : ev ∈ init := by rw [hinit]; simp
      have := h2 ev this
      rw [hev] at this
      simp at this

/-- The first loop of `Refresh` in the simulated world: its log is described by
`Stops`. -/
theorem refreshNear_stops (s : Script) (nodes : List (Option Node)) (w : Sim) :
    ∃ tr, (Cache.refreshNear (simCache s) nodes w).2.log = w.log ++ tr
      ∧ Stops (Cache.refreshNear (simCache s) nodes w).1 tr := by
  induction nodes generalizing w with
  | nil => exact ⟨[], by simp [Cache.refreshNear], Or.inl clean_nil⟩
  | cons x rest ih =>
    cases x with
    | none => exact ⟨[], by simp [Cache.refreshNear], Or.inl clean_nil⟩
    | some node =>
      rw [refreshNear_some, simCache_Ping]
      rcases s.ping w.log node with ⟨pinged, perr⟩
      cases perr with
      | some e =>
        exact ⟨[Event.ping node pinged (some e)], rfl,
          Or.inr ⟨[], Event.ping node pinged (some e), e, rfl, clean_nil, rfl, rfl⟩⟩
      | none =>
        dsimp only
        cases hA : pinged.Address with
        | none => exact ⟨[Event.ping node pinged none], rfl, Or.inl (clean_singleton _ rfl)⟩
        | some a =>
          dsimp only
          cases hs : s.putErr (w.log ++ [Event.ping node pinged none]) pinged.Id a.Address with
          | some e =>
            rw [simCache_Put_err s _ _ _ e hs]
            exact ⟨[Event.ping node pinged none] ++ [Event.put pinged.Id a.Address (some e)],
              by simp,
              Or.inr ⟨[Event.ping node pinged none], Event.put pinged.Id a.Address (some e), e,
                rfl, clean_singleton _ rfl, rfl, rfl⟩⟩
          | none =>
            rw [simCache_Put_ok s _ _ _ hs]
            dsimp only
            obtain ⟨tr, h1, h2⟩ := ih
              ⟨upsert pinged.Id a.Address w.kv,
               w.log ++ [Event.ping node pinged none] ++ [Event.put pinged.Id a.Address none]⟩
            refine ⟨[Event.ping node pinged none, Event.put pinged.Id a.Address none] ++ tr,
              ?_, ?_⟩
            · rw [h1]; simp
            · refine stops_prepend _ _ _ ?_ h2
              intro ev hev
              simp only [List.mem_cons, List.mem_singleton, List.not_mem_nil, or_false] at hev
              rcases hev with hev | hev <;> rw [hev] <;> rfl
theorem simRand_eq (s : Script) (w : Sim) :
    simRand s w
      = (s.randRead w.log,
          ⟨w.kv, w.log ++ [Event.randRead (s.randRead w.log).1 (s.randRead w.log).2]⟩) :=
  rfl

/-- The log of `Refresh` in the simulated world is described by `Stops`: a call that
returned an error is the last call of `Refresh`, which returns that error. -/
theorem Refresh_stops (s : Script) (w : Sim) :
    ∃ tr, (Cache.Refresh (simCache s) (simRand s) w).2.log = w.log ++ tr
      ∧ Stops (some (Cache.Refresh (simCache s) (simRand s) w).1) tr := by
  unfold Cache.Refresh
  rw [simRand_eq]
  rcases s.randRead w.log with ⟨r, rerr⟩
  cases rerr with
  | some e =>
    exact ⟨[Event.randRead r (some e)], rfl,
      Or.inr ⟨[], Event.randRead r (some e), e, rfl, clean_nil, rfl, rfl⟩⟩
  | none =>
    dsimp only
    rw [simCache_GetNodes]
    rcases s.getNodes (w.log ++ [Event.randRead r none]) (NodeID.String ⟨r⟩) 128
      with ⟨near, gerr⟩
    cases gerr with
    | some e =>
      exact ⟨[Event.randRead r none] ++ [Event.getNodes (NodeID.String ⟨r⟩) 128 near (some e)],
        by simp,
        Or.inr ⟨[Event.randRead r none], Event.getNodes (NodeID.String ⟨r⟩) 128 near (some e),
          e, rfl, clean_singleton _ rfl, rfl, rfl⟩⟩
    | none =>
      dsimp only
      obtain ⟨tr1, h1, h2⟩ := refreshNear_stops s near
        ⟨w.kv, w.log ++ [Event.randRead r none]
          ++ [Event.getNodes (NodeID.String ⟨r⟩) 128 near none]⟩
      rcases hN : Cache.refreshNear (simCache s) near
        ⟨w.kv, w.log ++ [Event.randRead r none]
          ++ [Event.getNodes (NodeID.String ⟨r⟩) 128 near none]⟩ with ⟨x1, w2⟩
      rw [hN] at h1 h2
      have hpre : Clean [Event.randRead r none,
          Event.getNodes (NodeID.String ⟨r⟩) 128 near none] := by
        intro ev hev
        simp only [List.mem_cons, List.mem_singleton, List.not_mem_nil, or_false] at hev
        rcases hev with hev | hev <;> rw [hev] <;> rfl
      cases x1 with
      | some x =>
        refine ⟨[Event.randRead r none, Event.getNodes (NodeID.String ⟨r⟩) 128 near none]
          ++ tr1, ?_, stops_prepend _ _ _ hpre ?_⟩
        · show w2.log = _
          rw [h1]; simp
        · rcases h2 with h2 | ⟨init, ev, e, a1, a2, a3, a4⟩
          · exact Or.inl h2
          · refine Or.inr ⟨init, ev, e, a1, a2, a3, ?_⟩
            simp only [Option.some.injEq] at a4
            show some x = _
            rw [a4]
      | none =>
        dsimp only
        have hc1 : Clean tr1 := stops_none_clean tr1 h2
        rw [simCache_GetNodes]
        rcases s.getNodes w2.log [] 128 with ⟨nodes, gerr2⟩
        have hw2 : w2.log = w.log ++ ([Event.randRead r none,
            Event.getNodes (NodeID.String ⟨r⟩) 128 near none] ++ tr1) := by
          rw [h1]; simp
        cases gerr2 with
        | some e =>
          refine ⟨([Event.randRead r none, Event.getNodes (NodeID.String ⟨r⟩) 128 near none]
            ++ tr1) ++ [Event.getNodes [] 128 nodes (some e)], ?_, ?_⟩
          · show w2.log ++ _ = _
            rw [hw2]; simp
          · exact Or.inr ⟨_, Event.getNodes [] 128 nodes (some e), e, rfl,
              clean_append _ _ hpre hc1, rfl, rfl⟩
        | none =>
          dsimp only
          rw [refreshAll_eq_refreshNear]
          obtain ⟨tr2, g1, g2⟩ := refreshNear_stops s nodes
            ⟨w2.kv, w2.log ++ [Event.getNodes [] 128 nodes none]⟩
          rcases hA : Cache.refreshNear (simCache s) nodes
            ⟨w2.kv, w2.log ++ [Event.getNodes [] 128 nodes none]⟩ with ⟨x2, w4⟩
          rw [hA] at g1 g2
          have hpre2 : Clean (([Event.randRead r none,
              Event.getNodes (NodeID.String ⟨r⟩) 128 near none] ++ tr1)
              ++ [Event.getNodes [] 128 nodes none]) :=
            clean_append _ _ (clean_append _ _ hpre hc1) (clean_singleton _ rfl)
          refine ⟨(([Event.randRead r none, Event.getNodes (NodeID.String ⟨r⟩) 128 near none]
            ++ tr1) ++ [Event.getNodes [] 128 nodes none]) ++ tr2, ?_, ?_⟩
          · cases x2 with
            | some x =>
              show w4.log = _
              rw [g1, hw2]; simp
            | none =>
              show w4.log = _
              rw [g1, hw2]; simp
          · cases x2 with
            | some x =>
              refine stops_prepend _ _ _ hpre2 ?_
              rcases g2 with g2 | ⟨init, ev, e, a1, a2, a3, a4⟩
              · exact Or.inl g2
              · refine Or.inr ⟨init, ev, e, a1, a2, a3, ?_⟩
                simp only [Option.some.injEq] at a4
                show some x = _
                rw [a4]
            | none =>
              exact Or.inl (clean_append _ _ hpre2 (stops_none_clean tr2 g2))
/-- C9: a store-write failure aborts `Refresh`. If a `Put` of `Refresh` (in either
sweep) fails with `e`, that `Put` is the last call `Refresh` makes (no `Ping`,
`GetNodes` or `Put` follows, so after a failure in the first sweep the second sweep
is not started) and `Refresh` returns exactly `e`. -/
theorem Refresh_store_failure (s : Script) (w : Sim) (pre post : List Event)
    (k v : Bytes) (e : Err)
    (hlog : (Cache.Refresh (simCache s) (simRand s) w).2.log
      = w.log ++ (pre ++ Event.put k v (some e) :: post)) :
    post = [] ∧ (Cache.Refresh (simCache s) (simRand s) w).1 = Exit.ret (some e) := by
  obtain ⟨tr, h1, h2⟩ := Refresh_stops s w
  rw [h1] at hlog
  exact stops_last _ tr pre post (Event.put k v (some e)) e h2
    (List.append_cancel_left hlog) rfl

/-- Witness of `Refresh_store_failure`: the DHT lists `n1, n2` and the store refuses
the write of `n2` in the first sweep; the second `GetNodes` is never called. -/
theorem Refresh_store_failure_witness :
    (Cache.Refresh (simCache (putFailsScript [nodeN1, nodeN2] [110, 50]))
        (simRand (putFailsScript [nodeN1, nodeN2] [110, 50])) Sim.init).2.log
        = Sim.init.log ++ ([Event.randRead [7, 7, 7] none,
            Event.getNodes [7, 7, 7] 128 [some nodeN1, some nodeN2] none,
            Event.ping nodeN1 nodeN1 none,
            Event.put [110, 49] [58, 55, 48, 55, 48] none,
            Event.ping nodeN2 nodeN2 none]
          ++ Event.put [110, 50] [58, 56, 48, 56, 48] (some "disk full") :: [])
      ∧ ([] : List Event) = []
      ∧ (Cache.Refresh (simCache (putFailsScript [nodeN1, nodeN2] [110, 50]))
          (simRand (putFailsScript [nodeN1, nodeN2] [110, 50])) Sim.init).1
        = Exit.ret (some "disk full") :=
  ⟨by decide,
   Refresh_store_failure (putFailsScript [nodeN1, nodeN2] [110, 50]) Sim.init
    [Event.randRead [7, 7, 7] none,
     Event.getNodes [7, 7, 7] 128 [some nodeN1, some nodeN2] none,
     Event.ping nodeN1 nodeN1 none,
     Event.put [110, 49] [58, 55, 48, 55, 48] none,
     Event.ping nodeN2 nodeN2 none]
    [] [110, 50] [58, 56, 48, 56, 48] "disk full" (by decide)⟩

/-- C4 (as stated, at a failing ping): the DHT lists `n1, n2`, the `Ping` of `n1`
fails with `"ping timeout"` and no `Put` fails. `Refresh` returns that error, not
nil; `n2` is neither pinged nor persisted and the second sweep is not run: the log
ends with the failed `Ping` and the store stays empty. -/
theorem Refresh_ping_failure_returned :
    Cache.Refresh (simCache (pingFailsScript [nodeN1, nodeN2] [110, 49]))
        (simRand (pingFailsScript [nodeN1, nodeN2] [110, 49])) Sim.init
      = (Exit.ret (some "ping timeout"),
          ⟨[],
           [Event.randRead [7, 7, 7] none,
            Event.getNodes [7, 7, 7] 128 [some nodeN1, some nodeN2] none,
            Event.ping nodeN1 Node.zero (some "ping timeout")]⟩) := by
  decide

/-- C4 (amended): a ping failure ends `Refresh`. If a `Ping` of `Refresh` (in either
sweep) fails with `e`, that `Ping` is the last call `Refresh` makes (no later node
is pinged or persisted, and after a failure in the first sweep the second sweep is
not run) and `Refresh` returns exactly `e`. -/
theorem Refresh_ping_failure (s : Script) (w : Sim) (pre post : List Event)
    (node pinged : Node) (e : Err)
    (hlog : (Cache.Refresh (simCache s) (simRand s) w).2.log
      = w.log ++ (pre ++ Event.ping node pinged (some e) :: post)) :
    post = [] ∧ (Cache.Refresh (simCache s) (simRand s) w).1 = Exit.ret (some e) := by
  obtain ⟨tr, h1, h2⟩ := Refresh_stops s w
  rw [h1] at hlog
  exact stops_last _ tr pre post (Event.ping node pinged (some e)) e h2
    (List.append_cancel_left hlog) rfl

/-- Witness of `Refresh_ping_failure`: the DHT lists `n1, n2` and the `Ping` of `n2`
fails in the first sweep, after `n1` was pinged and persisted. -/
theorem Refresh_ping_failure_witness :
    (Cache.Refresh (simCache (pingFailsScript [nodeN1, nodeN2] [110, 50]))
        (simRand (pingFailsScript [nodeN1, nodeN2] [110, 50])) Sim.init).2.log
        = Sim.init.log ++ ([Event.randRead [7, 7, 7] none,
            Event.getNodes [7, 7, 7] 128 [some nodeN1, some nodeN2] none,
            Event.ping nodeN1 nodeN1 none,
            Event.put [110, 49] [58, 55, 48, 55, 48] none]
          ++ Event.ping nodeN2 Node.zero (some "ping timeout") :: [])
      ∧ ([] : List Event) = []
      ∧ (Cache.Refresh (simCache (pingFailsScript [nodeN1, nodeN2] [110, 50]))
          (simRand (pingFailsScript [nodeN1, nodeN2] [110, 50])) Sim.init).1
        = Exit.ret (some "ping timeout") :=
  ⟨by decide,
   Refresh_ping_failure (pingFailsScript [nodeN1, nodeN2] [110, 50]) Sim.init
    [Event.randRead [7, 7, 7] none,
     Event.getNodes [7, 7, 7] 128 [some nodeN1, some nodeN2] none,
     Event.ping nodeN1 nodeN1 none,
     Event.put [110, 49] [58, 55, 48, 55, 48] none]
    [] nodeN2 Node.zero "ping timeout" (by decide)⟩

/-- C5 (the code at the failing input): the DHT lists `n1`, whose `Ping` succeeds
and returns `n1`, and nothing fails. `Refresh` returns nil and leaves under the key
`"n1"` the bytes of the address `":7070"`, not the serialization of the node; the
following `Get("n1")` fails to decode them and returns no node. -/
theorem Refresh_writes_raw_address :
    Cache.Refresh (simCache (netScript [nodeN1])) (simRand (netScript [nodeN1])) Sim.init
      = (Exit.ret none,
          ⟨[([110, 49], [58, 55, 48, 55, 48])],
           [Event.randRead [7, 7, 7] none,
            Event.getNodes [7, 7, 7] 128 [some nodeN1] none,
            Event.ping nodeN1 nodeN1 none,
            Event.put [110, 49] [58, 55, 48, 55, 48] none,
            Event.getNodes [] 128 [some nodeN1] none,
            Event.ping nodeN1 nodeN1 none,
            Event.put [110, 49] [58, 55, 48, 55, 48] none]⟩)
      ∧ proto3.Marshal nodeN1 = .ok [10, 2, 110, 49, 18, 7, 18, 5, 58, 55, 48, 55, 48]
      ∧ Cache.Get (simCache (netScript [nodeN1])) proto3
          (Cache.Refresh (simCache (netScript [nodeN1])) (simRand (netScript [nodeN1]))
            Sim.init).2 nodeN1.Id
        = (none, some "unexpected EOF") := by
  decide

end Overlay
